import Mathlib

/-!
# GTFS-Realtime to JSON response filter (`main.go`)

A shallow embedding of `gtfsrtPlugin.ServeHTTP` and of the parts of the Go
standard library it calls (`net/http` header maps, `http.ResponseWriter`,
`http.Error`, `http.NewRequest`, `strings.Contains`), followed by theorems
about the emitted response.

Modelling conventions:

* a Go `string` is a `String`, a `[]byte` is a `List UInt8`; containment of
  one string in another is containment of character sequences, which for
  UTF-8 text is containment of byte sequences;
* an `http.Header` (`map[string][]string`) is an association list; `range`
  visits its entries in list order, so quantifying over all lists covers
  every iteration order;
* the `http.ResponseWriter` is a recorder: it keeps the live header map, the
  status and header snapshot taken by the first `WriteHeader`, the body
  written so far, and the sequence of calls made on it;
* the backend (`client.Do`, `io.ReadAll`), `url.Parse`, `proto.Unmarshal` and
  `protojson.Marshal` are parameters, collected in `Env`;
* logger calls, and the helper `min` that only a logger call uses, have no
  effect on the response and are left out.
-/

namespace GtfsrtPlugin

/-! ## Strings and bytes -/

/-- A Go byte slice. -/
abbrev Bytes := List UInt8

/-- The conversion `[]byte(s)`. -/
def bytesOf (s : String) : Bytes := s.toUTF8.data.toList

/-- Search for `sub` at every position of the text, left to right. -/
def containsAt (sub : List Char) : List Char → Bool
  | [] => sub.isPrefixOf []
  | c :: cs => sub.isPrefixOf (c :: cs) || containsAt sub cs

/-- Go `strings.Contains(s, substr)`: plain, case-sensitive containment. -/
def strings.Contains (s substr : String) : Bool :=
  containsAt substr.data s.data

/-- The text `sub` occurs somewhere inside `s`. -/
def HasSubstring (s sub : String) : Prop :=
  ∃ pre post : String, s = pre ++ sub ++ post

/-! ## Canonical header names (`net/textproto`) -/

/-- Go `validHeaderFieldByte`: the token characters of RFC 7230. -/
def validHeaderFieldByte (c : Char) : Bool :=
  let n := c.toNat
  (48 ≤ n && n ≤ 57) || (65 ≤ n && n ≤ 90) || (97 ≤ n && n ≤ 122) ||
    "!#$%&\x27*+-.^_\x60|~".data.contains c

/-- One step of the canonicalising loop: upper case at the start and after a
dash, lower case elsewhere. -/
def canonByte (upper : Bool) (c : Char) : Char :=
  let n := c.toNat
  if upper && (97 ≤ n && n ≤ 122) then Char.ofNat (n - 32)
  else if !upper && (65 ≤ n && n ≤ 90) then Char.ofNat (n + 32)
  else c

/-- The canonicalising loop of `canonicalMIMEHeaderKey`. -/
def canonBytes : Bool → List Char → List Char
  | _, [] => []
  | upper, c :: cs => canonByte upper c :: canonBytes (canonByte upper c == '-') cs

/-- Go `textproto.CanonicalMIMEHeaderKey`: a name made of token characters
only is put in canonical form, any other name is returned unchanged. -/
def CanonicalMIMEHeaderKey (s : String) : String :=
  if s.data.all validHeaderFieldByte then String.mk (canonBytes true s.data) else s

/-! ## Header maps (`http.Header`) -/

/-- A Go `http.Header`, a `map[string][]string`, as an association list. -/
abbrev Header := List (String × List String)

/-- The entry stored under `k`, if there is one. -/
def Header.lookup : Header → String → Option (List String)
  | [], _ => none
  | (k1, vs) :: t, k => if k1 = k then some vs else Header.lookup t k

/-- The map index expression `h[k]`: the empty slice when `k` is absent. -/
def Header.index (h : Header) (k : String) : List String :=
  (Header.lookup h k).getD []

/-- The map assignment `h[k] = vs`. -/
def Header.store : Header → String → List String → Header
  | [], k, vs => [(k, vs)]
  | (k1, vs1) :: t, k, vs =>
    if k1 = k then (k1, vs) :: t else (k1, vs1) :: Header.store t k vs

/-- The builtin `delete(h, k)`. -/
def Header.delete (h : Header) (k : String) : Header :=
  h.filter (fun e => e.1 ≠ k)

/-- Go `Header.Add`: append `value` to the values of the canonical `key`. -/
def Header.Add (h : Header) (key value : String) : Header :=
  let key := CanonicalMIMEHeaderKey key
  Header.store h key (Header.index h key ++ [value])

/-- Go `Header.Set`: the canonical `key` gets the single value `value`. -/
def Header.Set (h : Header) (key value : String) : Header :=
  Header.store h (CanonicalMIMEHeaderKey key) [value]

/-- Go `Header.Get`: the first value of the canonical `key`, or `""`. -/
def Header.Get (h : Header) (key : String) : String :=
  match Header.index h (CanonicalMIMEHeaderKey key) with
  | [] => ""
  | v :: _ => v

/-- Go `Header.Del`. -/
def Header.Del (h : Header) (key : String) : Header :=
  Header.delete h (CanonicalMIMEHeaderKey key)

/-- The names held by a header map. -/
def Header.names (h : Header) : List String := h.map Prod.fst

/-- A header map as `net/http` builds it when it reads a message: one entry
per name, every name fixed by canonicalisation, at least one value per name. -/
def Header.WellFormed (h : Header) : Prop :=
  (Header.names h).Nodup ∧
    ∀ e ∈ h, CanonicalMIMEHeaderKey e.1 = e.1 ∧ e.2 ≠ []

instance (h : Header) : Decidable (Header.WellFormed h) := by
  unfold Header.WellFormed; exact inferInstance

/-- The header map `net/textproto` builds from the header lines of a
message, each a name and a value: `m[key] = append(m[key], value)` under the
canonical `key`, line after line. -/
def readHeader (lines : List (String × String)) : Header :=
  lines.foldl (fun h l => Header.Add h l.1 l.2) []

/-! ## The response writer (`http.ResponseWriter`) -/

/-- A call made on the response writer or on its header map. -/
inductive Op where
  | hAdd (key value : String)
  | hSet (key value : String)
  | hDel (key : String)
  | writeHeader (code : Nat)
  | write (b : Bytes)
  deriving DecidableEq, Repr

/-- A call that changes the header map. -/
def Op.isHeaderOp : Op → Bool
  | .hAdd _ _ => true
  | .hSet _ _ => true
  | .hDel _ => true
  | _ => false

/-- A call of `WriteHeader`. -/
def Op.isWriteHeader : Op → Bool
  | .writeHeader _ => true
  | _ => false

/-- A call of `Write`. -/
def Op.isWrite : Op → Bool
  | .write _ => true
  | _ => false

/-- State of a recording `http.ResponseWriter`. `header` is the live map
returned by `w.Header()`; `status` and `sent` are fixed by the first
`WriteHeader`; `body` collects what `Write` received; `ops` is the sequence
of calls. -/
structure ResponseWriter where
  header : Header
  wroteHeader : Bool
  status : Nat
  sent : Header
  body : Bytes
  ops : List Op
  deriving DecidableEq, Repr

/-- A writer on which nothing has been called yet, with header map `h`. -/
def ResponseWriter.fresh (h : Header) : ResponseWriter :=
  { header := h, wroteHeader := false, status := 0, sent := [], body := [], ops := [] }

/-- The call `w.Header().Add(key, value)`. -/
def ResponseWriter.headerAdd (w : ResponseWriter) (key value : String) : ResponseWriter :=
  { w with header := Header.Add w.header key value, ops := w.ops ++ [Op.hAdd key value] }

/-- The call `w.Header().Set(key, value)`. -/
def ResponseWriter.headerSet (w : ResponseWriter) (key value : String) : ResponseWriter :=
  { w with header := Header.Set w.header key value, ops := w.ops ++ [Op.hSet key value] }

/-- The call `w.Header().Del(key)`. -/
def ResponseWriter.headerDel (w : ResponseWriter) (key : String) : ResponseWriter :=
  { w with header := Header.Del w.header key, ops := w.ops ++ [Op.hDel key] }

/-- The call `w.WriteHeader(code)`: the first call fixes the status and the
headers, a later one is ignored. The code is recorded as given: what a
particular writer does with a code that is not a final status code (the
`net/http` server refuses a code below 100) is outside the model. -/
def ResponseWriter.WriteHeader (w : ResponseWriter) (code : Nat) : ResponseWriter :=
  if w.wroteHeader then { w with ops := w.ops ++ [Op.writeHeader code] }
  else { w with wroteHeader := true, status := code, sent := w.header,
                ops := w.ops ++ [Op.writeHeader code] }

/-- The call `w.Write(b)`: writes the header with status 200 first when
`WriteHeader` was not called. -/
def ResponseWriter.Write (w : ResponseWriter) (b : Bytes) : ResponseWriter :=
  let w1 := if w.wroteHeader then w else w.WriteHeader 200
  { w1 with body := w1.body ++ b, ops := w1.ops ++ [Op.write b] }

/-- Go `http.Error(w, error, code)`: drops `Content-Length`, sets the plain
text content type and `nosniff`, writes the status, then the message and a
line feed (`fmt.Fprintln`). -/
def http.Error (w : ResponseWriter) (error : String) (code : Nat) : ResponseWriter :=
  let w := w.headerDel "Content-Length"
  let w := w.headerSet "Content-Type" "text/plain; charset=utf-8"
  let w := w.headerSet "X-Content-Type-Options" "nosniff"
  let w := w.WriteHeader code
  w.Write (bytesOf (error ++ "\n"))

/-! ## Requests, responses and the environment -/

/-- A `*url.URL`, with the parts a request URL is made of. -/
structure URL where
  Scheme : String
  Host : String
  Path : String
  RawQuery : String
  deriving DecidableEq, Repr

/-- The inbound `*http.Request`. -/
structure Request where
  Method : String
  URL : URL
  Header : Header
  Body : Bytes
  deriving DecidableEq, Repr

/-- The request handed to `client.Do`. -/
structure BackendRequest where
  Method : String
  URL : URL
  Header : Header
  Body : Bytes
  deriving DecidableEq, Repr

/-- The `*http.Response` returned by `client.Do`. `Body` is the result of
`io.ReadAll(resp.Body)`: `none` when reading fails. -/
structure Response where
  StatusCode : Nat
  Header : Header
  Body : Option Bytes
  deriving DecidableEq, Repr

/-- The external collaborators. `urlString` is `URL.String` and `urlParse`
is `url.Parse` (`none` on error), both of `net/url`; `Do` is `client.Do`
(`none` when sending fails); `Unmarshal` is `proto.Unmarshal` into a
`gtfs.FeedMessage` and `Marshal` the `protojson` marshaler with the options
of the source (`none` on error). -/
structure Env (Feed : Type) where
  urlString : URL → String
  urlParse : String → Option URL
  Do : BackendRequest → Option Response
  Unmarshal : Bytes → Option Feed
  Marshal : Feed → Option Bytes

/-- Go `strings.LastIndex(s, c)` for a one-character `c`, scanning from
position `i` with `found` the last position seen so far (`-1` for none). -/
def lastIndexFrom (c : Char) : List Char → Int → Int → Int
  | [], _, found => found
  | x :: xs, i, found => lastIndexFrom c xs (i + 1) (if x = c then i else found)

/-- Go `hasPort`: a colon comes after the last closing bracket. -/
def hasPort (s : String) : Bool :=
  decide (lastIndexFrom ']' s.data 0 (-1) < lastIndexFrom ':' s.data 0 (-1))

/-- Go `strings.TrimSuffix(s, ":")`. -/
def trimColon (s : String) : String :=
  if s.data.getLast? = some ':' then String.mk s.data.dropLast else s

/-- Go `removeEmptyPort`: `host:` becomes `host`. -/
def removeEmptyPort (host : String) : String :=
  if hasPort host then trimColon host else host

/-- Go `validMethod`: a non-empty token. -/
def validMethod (method : String) : Bool :=
  !method.data.isEmpty && method.data.all validHeaderFieldByte

/-- Go `http.NewRequest(method, url, body)`: an empty method means `GET`; an
invalid method or a URL that does not parse is an error; the URL of the new
request is the parsed one with an empty port removed from its host; its
header map is empty. -/
def http.NewRequest {Feed : Type} (env : Env Feed) (method url : String) (body : Bytes) :
    Option BackendRequest :=
  let method := if method = "" then "GET" else method
  if !validMethod method then none
  else
    match env.urlParse url with
    | none => none
    | some u =>
      some { Method := method, URL := { u with Host := removeEmptyPort u.Host },
             Header := [], Body := body }

/-! ## `ServeHTTP` -/

/-- The inner loop `for _, value := range values { h.Add(name, value) }` on
the header map of the backend request. -/
def addValues (name : String) (values : List String) (r : BackendRequest) : BackendRequest :=
  values.foldl (fun r value => { r with Header := Header.Add r.Header name value }) r

/-- Lines 43-55: build the backend request and copy the inbound headers. -/
def backendRequest {Feed : Type} (env : Env Feed) (req : Request) : Option BackendRequest :=
  match http.NewRequest env req.Method (env.urlString req.URL) req.Body with
  | none => none
  | some backendReq => some (req.Header.foldl (fun r e => addValues e.1 e.2 r) backendReq)

/-- Lines 76-80: the classification. -/
def isGTFSRT (contentType path : String) : Bool :=
  contentType == "application/x-protobuf" ||
    contentType == "application/protobuf" ||
    strings.Contains contentType "octet-stream" ||
    strings.Contains path "gtfs" ||
    strings.Contains path "tripupdates"

/-- The inner loop `for _, value := range values { w.Header().Add(name, value) }`. -/
def copyValues (name : String) (values : List String) (w : ResponseWriter) : ResponseWriter :=
  values.foldl (fun w value => w.headerAdd name value) w

/-- The loop `for name, values := range resp.Header` copying every header. -/
def copyHeaders (h : Header) (w : ResponseWriter) : ResponseWriter :=
  h.foldl (fun w e => copyValues e.1 e.2 w) w

/-- The loop of lines 134-140, which skips two names. -/
def copyEssentialHeaders (h : Header) (w : ResponseWriter) : ResponseWriter :=
  h.foldl (fun w e =>
    if e.1 ≠ "Content-Type" ∧ e.1 ≠ "Content-Length" then copyValues e.1 e.2 w else w) w

/-- The block the source repeats at lines 85-92, 102-109 and 123-130: copy
the headers, write the status, write the raw body. -/
def passThrough (resp : Response) (body : Bytes) (w : ResponseWriter) : ResponseWriter :=
  ((copyHeaders resp.Header w).WriteHeader resp.StatusCode).Write body

/-- Lines 59-146: what the handler does with the result of `client.Do`. -/
def respond {Feed : Type} (env : Env Feed) (w : ResponseWriter) (req : Request) :
    Option Response → ResponseWriter
  | none => http.Error w "Service Unavailable" 503
  | some resp =>
    match resp.Body with
    | none => http.Error w "Internal Server Error" 500
    | some body =>
      let contentType := Header.Get resp.Header "Content-Type"
      if !isGTFSRT contentType req.URL.Path then passThrough resp body w
      else
        match env.Unmarshal body with
        | none => passThrough resp body w
        | some feed =>
          match env.Marshal feed with
          | none => passThrough resp body w
          | some jsonData =>
            let w := copyEssentialHeaders resp.Header w
            let w := w.headerSet "Content-Type" "application/json"
            let w := w.WriteHeader resp.StatusCode
            w.Write jsonData

/-- The handler `gtfsrtPlugin.ServeHTTP`, as a function from the writer
before the call to the writer after it. -/
def ServeHTTP {Feed : Type} (env : Env Feed) (w : ResponseWriter) (req : Request) :
    ResponseWriter :=
  match backendRequest env req with
  | none => http.Error w "Internal Server Error" 500
  | some backendReq => respond env w req (env.Do backendReq)

/-! ## Sample inputs -/

/-- The URL of a feed. -/
def feedURL : URL :=
  { Scheme := "http", Host := "backend", Path := "/feeds/tripupdates", RawQuery := "" }

/-- The URL of a page that is no feed. -/
def plainURL : URL :=
  { Scheme := "http", Host := "backend", Path := "/status", RawQuery := "" }

/-- A URL whose host ends in a colon with no port after it; its text is
`http://backend:/status?q=gtfs`. -/
def emptyPortURL : URL :=
  { Scheme := "http", Host := "backend:", Path := "/status", RawQuery := "q=gtfs" }

/-- The text `URL.String` gives for a URL with a scheme, a host, a path and
a query that need no escaping, which the sample URLs are. -/
def sampleURLString (u : URL) : String :=
  u.Scheme ++ "://" ++ u.Host ++ u.Path ++ (if u.RawQuery = "" then "" else "?" ++ u.RawQuery)

/-- The result of `url.Parse` on the texts of the sample URLs: each parses
back to the URL it was rendered from, the colon of an empty port kept in
`Host`. Other texts are refused. -/
def sampleURLParse (s : String) : Option URL :=
  [feedURL, plainURL, emptyPortURL].find? (fun u => sampleURLString u = s)

/-- A stand-in environment: `net/url` on the sample URLs, a backend that
answers `resp` to every request, a decoder that accepts the bodies that
start with byte 10 (the tag of the feed header field), and an encoder that
produces `json` when given. -/
def sampleEnv (resp : Option Response) (json : Option Bytes) : Env Bytes :=
  { urlString := sampleURLString
    urlParse := sampleURLParse
    Do := fun _ => resp
    Unmarshal := fun b => if b.head? = some 10 then some b else none
    Marshal := fun _ => json }

/-- A request for a feed path. -/
def feedRequest : Request :=
  { Method := "GET"
    URL := feedURL
    Header := [("Accept", ["application/json", "text/plain"]), ("X-Trace", ["7"])]
    Body := [] }

/-- The backend request built from `feedRequest`. -/
def feedBackendRequest : BackendRequest :=
  { Method := "GET"
    URL := feedURL
    Header := [("Accept", ["application/json", "text/plain"]), ("X-Trace", ["7"])]
    Body := [] }

/-- A request for a path that names no feed. -/
def plainRequest : Request :=
  { Method := "GET"
    URL := plainURL
    Header := []
    Body := [] }

/-- The backend request built from `plainRequest`. -/
def plainBackendRequest : BackendRequest :=
  { Method := "GET", URL := plainURL, Header := [], Body := [] }

/-- A request whose URL has an empty port. -/
def emptyPortRequest : Request :=
  { Method := "GET"
    URL := emptyPortURL
    Header := [("Accept", ["*/*"])]
    Body := [] }

/-- A request whose method is not a token, so `http.NewRequest` refuses it. -/
def badMethodRequest : Request :=
  { Method := "BAD METHOD"
    URL := feedURL
    Header := []
    Body := [] }

/-- A backend response carrying a feed that the stand-in decoder accepts. -/
def feedResponse : Response :=
  { StatusCode := 200
    Header := [("Content-Type", ["application/x-protobuf"]), ("Content-Length", ["3"]),
      ("X-Request-Id", ["a", "b"])]
    Body := some [10, 1, 0] }

/-- A backend response declared as a feed whose body does not decode. -/
def truncatedResponse : Response :=
  { StatusCode := 200
    Header := [("Content-Type", ["application/x-protobuf"]), ("Content-Length", ["1"])]
    Body := some [255] }

/-- A backend response that is not a feed. -/
def plainResponse : Response :=
  { StatusCode := 404
    Header := [("Content-Type", ["text/html"]), ("Content-Length", ["2"])]
    Body := some [104, 105] }

/-- A backend response whose header lines spell the names in lower case,
read into a header map by `readHeader`; its body is a feed message that
holds a header with version `2.0`. -/
def lowerCaseWireResponse : Response :=
  { StatusCode := 200
    Header := readHeader [("content-type", "application/x-protobuf"),
      ("content-length", "7"), ("x-request-id", "a")]
    Body := some [10, 5, 10, 3, 50, 46, 48] }

/-- A backend response whose body cannot be read. -/
def unreadableResponse : Response :=
  { StatusCode := 200
    Header := [("Content-Type", ["application/x-protobuf"])]
    Body := none }

/-- The JSON text the stand-in encoder produces. -/
def sampleJson : Bytes := bytesOf "\x7b\x7d"

/-! ## Pure forms of the copy loops, used to state what they compute -/

/-- Pure form of the inner copy loop: add every value under `name`. -/
def Header.addAll (h : Header) (name : String) (values : List String) : Header :=
  values.foldl (fun h v => Header.Add h name v) h

/-- Pure form of the outer copy loop, restricted to the names accepted by `p`. -/
def Header.copyInto (p : String → Bool) (src acc : Header) : Header :=
  src.foldl (fun acc e => if p e.1 then Header.addAll acc e.1 e.2 else acc) acc

/-- The names the loop of lines 134-140 copies. -/
def essential (name : String) : Bool :=
  decide (name ≠ "Content-Type" ∧ name ≠ "Content-Length")

/-- The calls the copy loop makes on the header map of the writer. -/
def copyOps (p : String → Bool) (h : Header) : List Op :=
  h.flatMap (fun e => if p e.1 then e.2.map (Op.hAdd e.1) else [])

/-! ## Substrings -/

theorem containsAt_iff (sub s : List Char) : containsAt sub s = true ↔ sub <:+: s := by
  induction s with
  | nil => simp [containsAt, List.isPrefixOf_iff_prefix]
  | cons c cs ih =>
    simp only [containsAt, Bool.or_eq_true, ih, List.isPrefixOf_iff_prefix, List.infix_cons_iff]

theorem hasSubstring_iff (s sub : String) : HasSubstring s sub ↔ sub.data <:+: s.data := by
  constructor
  · rintro ⟨pre, post, h⟩
    exact ⟨pre.data, post.data, by rw [h]; simp⟩
  · rintro ⟨a, b, h⟩
    refine ⟨String.mk a, String.mk b, ?_⟩
    apply String.ext
    simp [← h]

theorem contains_iff (s sub : String) : strings.Contains s sub = true ↔ HasSubstring s sub := by
  rw [hasSubstring_iff]; exact containsAt_iff _ _

/-! ## Canonical names -/

theorem toNat_ofNat_lt (m : Nat) (h : m < 55296) : (Char.ofNat m).toNat = m := by
  have hv : m.isValidChar := Or.inl h
  simp only [Char.ofNat, hv, dite_true, Char.ofNatAux, Char.toNat]
  show (BitVec.ofNatLt m _).toNat = m
  simp

theorem canonByte_toNat (up : Bool) (c : Char) :
    (canonByte up c).toNat =
      if up && (97 ≤ c.toNat && c.toNat ≤ 122) then c.toNat - 32
      else if !up && (65 ≤ c.toNat && c.toNat ≤ 90) then c.toNat + 32 else c.toNat := by
  unfold canonByte
  simp only []
  split
  · rename_i h
    simp only [Bool.and_eq_true, decide_eq_true_eq] at h
    exact toNat_ofNat_lt _ (by omega)
  · split
    · rename_i h
      simp only [Bool.and_eq_true, decide_eq_true_eq] at h
      exact toNat_ofNat_lt _ (by omega)
    · rfl

theorem canonByte_fixed (up : Bool) (d : Char)
    (h : if up then ¬ (97 ≤ d.toNat ∧ d.toNat ≤ 122) else ¬ (65 ≤ d.toNat ∧ d.toNat ≤ 90)) :
    canonByte up d = d := by
  cases up <;> simp only [Bool.false_eq_true, if_false, if_true] at h <;>
    unfold canonByte <;> simp [h]

theorem canonByte_idem (up : Bool) (c : Char) :
    canonByte up (canonByte up c) = canonByte up c := by
  apply canonByte_fixed
  have h1 := canonByte_toNat up c
  cases up
  · simp only [Bool.false_eq_true, if_false] at h1 ⊢
    simp only [Bool.false_and, Bool.not_false, Bool.true_and, Bool.false_eq_true, if_false] at h1
    split at h1 <;> rename_i h <;> simp only [Bool.and_eq_true, decide_eq_true_eq] at h <;> omega
  · simp only [if_true] at h1 ⊢
    simp only [Bool.true_and, Bool.not_true, Bool.false_and, Bool.false_eq_true, if_false] at h1
    split at h1 <;> rename_i h <;> simp only [Bool.and_eq_true, decide_eq_true_eq] at h <;> omega

theorem canonBytes_idem (up : Bool) (l : List Char) :
    canonBytes up (canonBytes up l) = canonBytes up l := by
  induction l generalizing up with
  | nil => rfl
  | cons c cs ih => simp only [canonBytes, canonByte_idem, ih]

theorem valid_of_toNat (c : Char) (h : (65 ≤ c.toNat ∧ c.toNat ≤ 90) ∨ (97 ≤ c.toNat ∧ c.toNat ≤ 122)) :
    validHeaderFieldByte c = true := by
  unfold validHeaderFieldByte
  simp only [Bool.or_eq_true, Bool.and_eq_true, decide_eq_true_eq]
  rcases h with h | h
  · exact Or.inl (Or.inl (Or.inr h))
  · exact Or.inl (Or.inr h)

theorem canonByte_valid (up : Bool) (c : Char) (h : validHeaderFieldByte c = true) :
    validHeaderFieldByte (canonByte up c) = true := by
  have h1 := canonByte_toNat up c
  split at h1
  · rename_i h2
    simp only [Bool.and_eq_true, decide_eq_true_eq] at h2
    exact valid_of_toNat _ (by omega)
  · split at h1
    · rename_i h2
      simp only [Bool.and_eq_true, decide_eq_true_eq] at h2
      exact valid_of_toNat _ (by omega)
    · rename_i h2 h3
      have : canonByte up c = c := by
        unfold canonByte; simp only []; rw [if_neg h2, if_neg h3]
      rw [this]; exact h

theorem canonBytes_valid (up : Bool) (l : List Char) (h : l.all validHeaderFieldByte = true) :
    (canonBytes up l).all validHeaderFieldByte = true := by
  induction l generalizing up with
  | nil => rfl
  | cons c cs ih =>
    simp only [List.all_cons, Bool.and_eq_true] at h
    simp only [canonBytes, List.all_cons, Bool.and_eq_true]
    exact ⟨canonByte_valid up c h.1, ih _ h.2⟩

theorem canonical_idem (s : String) :
    CanonicalMIMEHeaderKey (CanonicalMIMEHeaderKey s) = CanonicalMIMEHeaderKey s := by
  unfold CanonicalMIMEHeaderKey
  by_cases h : s.data.all validHeaderFieldByte = true
  · simp only [h, if_true, canonBytes_valid true _ h, canonBytes_idem]
  · simp only [h, if_false]
    simp [h]

/-! ## Header maps -/

theorem lookup_store (h : Header) (k k1 : String) (vs : List String) :
    Header.lookup (Header.store h k vs) k1 = if k1 = k then some vs else Header.lookup h k1 := by
  induction h with
  | nil =>
    by_cases hk : k1 = k
    · simp [Header.store, Header.lookup, hk]
    · have : ¬ k = k1 := fun e => hk e.symm
      simp [Header.store, Header.lookup, hk, this]
  | cons e t ih =>
    obtain ⟨k2, vs2⟩ := e
    by_cases h2 : k2 = k
    · subst h2
      by_cases hk : k1 = k2
      · simp [Header.store, Header.lookup, hk]
      · have : ¬ k2 = k1 := fun e => hk e.symm
        simp [Header.store, Header.lookup, hk, this]
    · simp only [Header.store, h2, if_false, Header.lookup, ih]
      by_cases hk : k2 = k1
      · have : ¬ k1 = k := by rw [← hk]; exact h2
        simp [hk, this]
      · simp [hk]

theorem lookup_eq_none_iff (h : Header) (k : String) :
    Header.lookup h k = none ↔ k ∉ Header.names h := by
  induction h with
  | nil => simp [Header.lookup, Header.names]
  | cons e t ih =>
    obtain ⟨k2, vs2⟩ := e
    by_cases hk : k2 = k
    · simp [Header.lookup, Header.names, hk]
    · have : ¬ k = k2 := fun e => hk e.symm
      simp only [Header.names] at ih
      simp [Header.lookup, Header.names, hk, this, ih]

theorem names_store (h : Header) (k : String) (vs : List String) :
    Header.names (Header.store h k vs) =
      if k ∈ Header.names h then Header.names h else Header.names h ++ [k] := by
  induction h with
  | nil => simp [Header.store, Header.names]
  | cons e t ih =>
    obtain ⟨k2, vs2⟩ := e
    simp only [Header.names] at ih
    by_cases hk : k2 = k
    · simp [Header.store, Header.names, hk]
    · have : ¬ k = k2 := fun e => hk e.symm
      by_cases hm : k ∈ List.map Prod.fst t
      · simp [Header.store, Header.names, hk, this, ih, hm]
      · simp [Header.store, Header.names, hk, this, ih, hm]

theorem mem_store (h : Header) (k : String) (vs : List String) (e : String × List String)
    (he : e ∈ Header.store h k vs) : e ∈ h ∨ e = (k, vs) := by
  induction h with
  | nil => simp [Header.store] at he; exact Or.inr he
  | cons e1 t ih =>
    obtain ⟨k2, vs2⟩ := e1
    by_cases hk : k2 = k
    · simp only [Header.store, hk, if_true, List.mem_cons] at he
      rcases he with he | he
      · exact Or.inr he
      · exact Or.inl (List.mem_cons_of_mem _ he)
    · simp only [Header.store, hk, if_false, List.mem_cons] at he
      rcases he with he | he
      · exact Or.inl (he ▸ List.mem_cons_self _ _)
      · rcases ih he with h1 | h1
        · exact Or.inl (List.mem_cons_of_mem _ h1)
        · exact Or.inr h1

theorem wellFormed_store (h : Header) (k : String) (vs : List String)
    (hw : Header.WellFormed h) (hk : CanonicalMIMEHeaderKey k = k) (hv : vs ≠ []) :
    Header.WellFormed (Header.store h k vs) := by
  refine ⟨?_, ?_⟩
  · rw [names_store]
    split
    · exact hw.1
    · rename_i hm
      exact List.Nodup.append hw.1 (List.nodup_singleton k) (by simpa using hm)
  · intro e he
    rcases mem_store h k vs e he with h1 | h1
    · exact hw.2 e h1
    · subst h1; exact ⟨hk, hv⟩

theorem wellFormed_nil : Header.WellFormed [] :=
  ⟨List.nodup_nil, fun _ he => by simp at he⟩

theorem wellFormed_Add (h : Header) (key value : String) (hw : Header.WellFormed h) :
    Header.WellFormed (Header.Add h key value) :=
  wellFormed_store h _ _ hw (canonical_idem key) (by simp)

theorem wellFormed_Set (h : Header) (key value : String) (hw : Header.WellFormed h) :
    Header.WellFormed (Header.Set h key value) :=
  wellFormed_store h _ _ hw (canonical_idem key) (by simp)

/-- Every header map read from the lines of a message is well formed. -/
theorem wellFormed_readHeader (lines : List (String × String)) :
    Header.WellFormed (readHeader lines) := by
  have h : ∀ (ls : List (String × String)) (acc : Header), Header.WellFormed acc →
      Header.WellFormed (ls.foldl (fun h l => Header.Add h l.1 l.2) acc) := by
    intro ls
    induction ls with
    | nil => exact fun _ hacc => hacc
    | cons l t ih => exact fun acc hacc => ih _ (wellFormed_Add acc l.1 l.2 hacc)
  exact h lines [] wellFormed_nil

theorem lookup_Add (h : Header) (key value k : String) :
    Header.lookup (Header.Add h key value) k =
      if k = CanonicalMIMEHeaderKey key then some (Header.index h k ++ [value])
      else Header.lookup h k := by
  unfold Header.Add
  simp only [lookup_store]
  split
  · rename_i hk; rw [hk]
  · rfl

theorem lookup_addAll (h : Header) (name : String) (values : List String) (k : String) :
    Header.lookup (Header.addAll h name values) k =
      if k = CanonicalMIMEHeaderKey name ∧ values ≠ [] then some (Header.index h k ++ values)
      else Header.lookup h k := by
  induction values generalizing h with
  | nil => simp [Header.addAll]
  | cons v vs ih =>
    have hstep : Header.addAll h name (v :: vs) = Header.addAll (Header.Add h name v) name vs := rfl
    rw [hstep, ih]
    by_cases hk : k = CanonicalMIMEHeaderKey name
    · by_cases hvs : vs = []
      · subst hvs
        simp [hk, lookup_Add]
      · simp only [hk, hvs, ne_eq, not_false_eq_true, and_self, if_true, reduceCtorEq]
        simp [Header.index, lookup_Add]
    · simp [hk, lookup_Add]

theorem wellFormed_addAll (h : Header) (name : String) (values : List String)
    (hw : Header.WellFormed h) : Header.WellFormed (Header.addAll h name values) := by
  induction values generalizing h with
  | nil => exact hw
  | cons v vs ih => exact ih _ (wellFormed_Add h name v hw)

theorem wellFormed_copyInto (p : String → Bool) (src acc : Header)
    (hw : Header.WellFormed acc) : Header.WellFormed (Header.copyInto p src acc) := by
  induction src generalizing acc with
  | nil => exact hw
  | cons e t ih =>
    show Header.WellFormed
      (Header.copyInto p t (if p e.1 then Header.addAll acc e.1 e.2 else acc))
    apply ih
    split
    · exact wellFormed_addAll _ _ _ hw
    · exact hw

/-- What the copy loop leaves under each name, for a well-formed source. -/
theorem lookup_copyInto (p : String → Bool) (src acc : Header) (hw : Header.WellFormed src)
    (k : String) :
    Header.lookup (Header.copyInto p src acc) k =
      match Header.lookup src k with
      | some vs => if p k then some (Header.index acc k ++ vs) else Header.lookup acc k
      | none => Header.lookup acc k := by
  induction src generalizing acc with
  | nil => simp [Header.copyInto, Header.lookup]
  | cons e t ih =>
    obtain ⟨k1, vs1⟩ := e
    have hwt : Header.WellFormed t :=
      ⟨(List.nodup_cons.1 hw.1).2, fun e he => hw.2 e (List.mem_cons_of_mem _ he)⟩
    have hk1 : k1 ∉ Header.names t := (List.nodup_cons.1 hw.1).1
    have hc : CanonicalMIMEHeaderKey k1 = k1 := (hw.2 (k1, vs1) (List.mem_cons_self _ _)).1
    have hv : vs1 ≠ [] := (hw.2 (k1, vs1) (List.mem_cons_self _ _)).2
    have hstep : Header.copyInto p ((k1, vs1) :: t) acc =
        Header.copyInto p t (if p k1 then Header.addAll acc k1 vs1 else acc) := rfl
    rw [hstep, ih _ hwt]
    by_cases hk : k1 = k
    · subst hk
      have hnone : Header.lookup t k1 = none := (lookup_eq_none_iff t k1).2 hk1
      simp only [hnone, Header.lookup, if_true]
      by_cases hp : p k1 = true
      · simp [hp, lookup_addAll, hc, hv]
      · simp [hp]
    · have hk' : ¬ k = k1 := fun e => hk e.symm
      simp only [Header.lookup, hk, if_false]
      by_cases hp : p k1 = true
      · simp only [hp, if_true, Header.index, lookup_addAll, hc, hk', false_and, if_false]
      · simp [hp]

/-- A name that no copied entry canonicalises to keeps its entry. -/
theorem lookup_copyInto_other (p : String → Bool) (src acc : Header) (k : String)
    (hk : ∀ e ∈ src, p e.1 = true → CanonicalMIMEHeaderKey e.1 ≠ k) :
    Header.lookup (Header.copyInto p src acc) k = Header.lookup acc k := by
  induction src generalizing acc with
  | nil => rfl
  | cons e t ih =>
    have hstep : Header.copyInto p (e :: t) acc =
        Header.copyInto p t (if p e.1 then Header.addAll acc e.1 e.2 else acc) := rfl
    rw [hstep, ih _ (fun e he => hk e (List.mem_cons_of_mem _ he))]
    by_cases hp : p e.1 = true
    · have := hk e (List.mem_cons_self _ _) hp
      have hne : ¬ k = CanonicalMIMEHeaderKey e.1 := fun h => this h.symm
      simp [hp, lookup_addAll, hne]
    · simp [hp]

/-! ## The copy loops on the writer -/

theorem copyValues_eq (name : String) (values : List String) (w : ResponseWriter) :
    copyValues name values w =
      { w with header := Header.addAll w.header name values,
               ops := w.ops ++ values.map (Op.hAdd name) } := by
  induction values generalizing w with
  | nil => simp [copyValues, Header.addAll]
  | cons v vs ih =>
    have hstep : copyValues name (v :: vs) w = copyValues name vs (w.headerAdd name v) := rfl
    rw [hstep, ih]
    simp [ResponseWriter.headerAdd, Header.addAll]

theorem copyHeaders_eq (h : Header) (w : ResponseWriter) :
    copyHeaders h w =
      { w with header := Header.copyInto (fun _ => true) h w.header,
               ops := w.ops ++ copyOps (fun _ => true) h } := by
  induction h generalizing w with
  | nil => simp [copyHeaders, Header.copyInto, copyOps]
  | cons e t ih =>
    have hstep : copyHeaders (e :: t) w = copyHeaders t (copyValues e.1 e.2 w) := rfl
    rw [hstep, ih, copyValues_eq]
    simp [Header.copyInto, copyOps]

theorem copyEssentialHeaders_eq (h : Header) (w : ResponseWriter) :
    copyEssentialHeaders h w =
      { w with header := Header.copyInto essential h w.header,
               ops := w.ops ++ copyOps essential h } := by
  induction h generalizing w with
  | nil => simp [copyEssentialHeaders, Header.copyInto, copyOps]
  | cons e t ih =>
    have hstep : copyEssentialHeaders (e :: t) w =
        copyEssentialHeaders t
          (if e.1 ≠ "Content-Type" ∧ e.1 ≠ "Content-Length" then copyValues e.1 e.2 w else w) := rfl
    rw [hstep, ih]
    by_cases hp : e.1 ≠ "Content-Type" ∧ e.1 ≠ "Content-Length"
    · have he : essential e.1 = true := by simp [essential, hp]
      rw [if_pos hp, copyValues_eq]
      simp [Header.copyInto, copyOps, he]
    · have he : essential e.1 = false := by simp only [essential, hp, decide_False]
      rw [if_neg hp]
      simp [Header.copyInto, copyOps, he]

theorem copyOps_isHeaderOp (p : String → Bool) (h : Header) :
    ∀ o ∈ copyOps p h, o.isHeaderOp = true := by
  intro o ho
  simp only [copyOps, List.mem_flatMap] at ho
  obtain ⟨e, _, ho⟩ := ho
  split at ho
  · obtain ⟨v, _, rfl⟩ := List.mem_map.1 ho
    rfl
  · simp at ho

/-- Writing the status and then the body on a writer whose header is not
written yet. -/
theorem writeHeader_write (w : ResponseWriter) (code : Nat) (b : Bytes)
    (hw : w.wroteHeader = false) :
    (w.WriteHeader code).Write b =
      { header := w.header, wroteHeader := true, status := code, sent := w.header,
        body := w.body ++ b, ops := w.ops ++ [Op.writeHeader code, Op.write b] } := by
  simp [ResponseWriter.WriteHeader, ResponseWriter.Write, hw]

theorem passThrough_eq (resp : Response) (body : Bytes) (w : ResponseWriter)
    (hw : w.wroteHeader = false) :
    passThrough resp body w =
      { header := Header.copyInto (fun _ => true) resp.Header w.header,
        wroteHeader := true, status := resp.StatusCode,
        sent := Header.copyInto (fun _ => true) resp.Header w.header,
        body := w.body ++ body,
        ops := w.ops ++ copyOps (fun _ => true) resp.Header ++
          [Op.writeHeader resp.StatusCode, Op.write body] } := by
  unfold passThrough
  rw [copyHeaders_eq, writeHeader_write _ _ _ (by simpa using hw)]

theorem transform_eq (resp : Response) (jsonData : Bytes) (w : ResponseWriter)
    (hw : w.wroteHeader = false) :
    ((((copyEssentialHeaders resp.Header w).headerSet "Content-Type"
        "application/json").WriteHeader resp.StatusCode).Write jsonData) =
      { header := Header.Set (Header.copyInto essential resp.Header w.header)
          "Content-Type" "application/json",
        wroteHeader := true, status := resp.StatusCode,
        sent := Header.Set (Header.copyInto essential resp.Header w.header)
          "Content-Type" "application/json",
        body := w.body ++ jsonData,
        ops := w.ops ++ copyOps essential resp.Header ++
          [Op.hSet "Content-Type" "application/json"] ++
          [Op.writeHeader resp.StatusCode, Op.write jsonData] } := by
  rw [copyEssentialHeaders_eq, writeHeader_write _ _ _ (by simpa [ResponseWriter.headerSet] using hw)]
  simp [ResponseWriter.headerSet]

theorem httpError_eq (w : ResponseWriter) (msg : String) (code : Nat)
    (hw : w.wroteHeader = false) :
    http.Error w msg code =
      { header := Header.Set (Header.Set (Header.Del w.header "Content-Length")
          "Content-Type" "text/plain; charset=utf-8") "X-Content-Type-Options" "nosniff",
        wroteHeader := true, status := code,
        sent := Header.Set (Header.Set (Header.Del w.header "Content-Length")
          "Content-Type" "text/plain; charset=utf-8") "X-Content-Type-Options" "nosniff",
        body := w.body ++ bytesOf (msg ++ "\n"),
        ops := w.ops ++ [Op.hDel "Content-Length",
          Op.hSet "Content-Type" "text/plain; charset=utf-8",
          Op.hSet "X-Content-Type-Options" "nosniff"] ++
          [Op.writeHeader code, Op.write (bytesOf (msg ++ "\n"))] } := by
  unfold http.Error
  simp only []
  rw [writeHeader_write _ _ _
    (by simpa [ResponseWriter.headerSet, ResponseWriter.headerDel] using hw)]
  simp [ResponseWriter.headerSet, ResponseWriter.headerDel]

/-! ## The branches of `ServeHTTP` -/

theorem isGTFSRT_false_of {c p : String} (h1 : c ≠ "application/x-protobuf")
    (h2 : c ≠ "application/protobuf") (h3 : ¬ HasSubstring c "octet-stream")
    (h4 : ¬ HasSubstring p "gtfs") (h5 : ¬ HasSubstring p "tripupdates") :
    isGTFSRT c p = false := by
  rw [← contains_iff] at h3 h4 h5
  simp [isGTFSRT, h1, h2, h3, h4, h5]

theorem serve_not_feed {Feed : Type} (env : Env Feed) (w : ResponseWriter) (req : Request)
    (br : BackendRequest) (resp : Response) (body : Bytes)
    (hreq : backendRequest env req = some br) (hdo : env.Do br = some resp)
    (hbody : resp.Body = some body)
    (hc : isGTFSRT (Header.Get resp.Header "Content-Type") req.URL.Path = false) :
    ServeHTTP env w req = passThrough resp body w := by
  simp [ServeHTTP, hreq, hdo, respond, hbody, hc]

theorem serve_decode_fail {Feed : Type} (env : Env Feed) (w : ResponseWriter) (req : Request)
    (br : BackendRequest) (resp : Response) (body : Bytes)
    (hreq : backendRequest env req = some br) (hdo : env.Do br = some resp)
    (hbody : resp.Body = some body)
    (hfail : env.Unmarshal body = none ∨
      ∃ feed, env.Unmarshal body = some feed ∧ env.Marshal feed = none) :
    ServeHTTP env w req = passThrough resp body w := by
  rcases hfail with hu | ⟨feed, hu, hm⟩
  · simp only [ServeHTTP, hreq, hdo, respond, hbody, hu]
    split <;> rfl
  · simp only [ServeHTTP, hreq, hdo, respond, hbody, hu, hm]
    split <;> rfl

theorem serve_transform {Feed : Type} (env : Env Feed) (w : ResponseWriter) (req : Request)
    (br : BackendRequest) (resp : Response) (body jsonData : Bytes) (feed : Feed)
    (hreq : backendRequest env req = some br) (hdo : env.Do br = some resp)
    (hbody : resp.Body = some body)
    (hc : isGTFSRT (Header.Get resp.Header "Content-Type") req.URL.Path = true)
    (hu : env.Unmarshal body = some feed) (hm : env.Marshal feed = some jsonData) :
    ServeHTTP env w req =
      ((((copyEssentialHeaders resp.Header w).headerSet "Content-Type"
        "application/json").WriteHeader resp.StatusCode).Write jsonData) := by
  simp [ServeHTTP, hreq, hdo, respond, hbody, hc, hu, hm]

theorem lookup_copyAll (h : Header) (hw : Header.WellFormed h) (k : String) :
    Header.lookup (Header.copyInto (fun _ => true) h []) k = Header.lookup h k := by
  rw [lookup_copyInto _ _ _ hw]
  cases Header.lookup h k with
  | none => rfl
  | some vs => simp [Header.index, Header.lookup]

theorem passThrough_fresh (resp : Response) (body : Bytes)
    (hw : Header.WellFormed resp.Header) :
    (passThrough resp body (ResponseWriter.fresh [])).status = resp.StatusCode ∧
      (∀ name, Header.lookup (passThrough resp body (ResponseWriter.fresh [])).sent name =
        Header.lookup resp.Header name) ∧
      (passThrough resp body (ResponseWriter.fresh [])).body = body := by
  rw [passThrough_eq _ _ _ rfl]
  refine ⟨rfl, fun name => lookup_copyAll _ hw name, ?_⟩
  simp [ResponseWriter.fresh]

theorem canonical_contentType : CanonicalMIMEHeaderKey "Content-Type" = "Content-Type" := by
  decide

theorem lookup_Set (h : Header) (key value k : String) :
    Header.lookup (Header.Set h key value) k =
      if k = CanonicalMIMEHeaderKey key then some [value] else Header.lookup h k := by
  unfold Header.Set
  rw [lookup_store]

/-- The paths `ServeHTTP` can take once the backend body is read. -/
theorem serve_read_cases {Feed : Type} (env : Env Feed) (w : ResponseWriter) (req : Request)
    (br : BackendRequest) (resp : Response) (body : Bytes)
    (hreq : backendRequest env req = some br) (hdo : env.Do br = some resp)
    (hbody : resp.Body = some body) :
    ServeHTTP env w req = passThrough resp body w ∨
      ∃ feed jsonData, env.Unmarshal body = some feed ∧ env.Marshal feed = some jsonData ∧
        ServeHTTP env w req =
          ((((copyEssentialHeaders resp.Header w).headerSet "Content-Type"
            "application/json").WriteHeader resp.StatusCode).Write jsonData) := by
  cases hc : isGTFSRT (Header.Get resp.Header "Content-Type") req.URL.Path with
  | false => exact Or.inl (serve_not_feed env w req br resp body hreq hdo hbody hc)
  | true =>
    cases hu : env.Unmarshal body with
    | none => exact Or.inl (serve_decode_fail env w req br resp body hreq hdo hbody (Or.inl hu))
    | some feed =>
      cases hm : env.Marshal feed with
      | none =>
        exact Or.inl (serve_decode_fail env w req br resp body hreq hdo hbody
          (Or.inr ⟨feed, hu, hm⟩))
      | some jsonData =>
        exact Or.inr ⟨feed, jsonData, rfl, hm,
          serve_transform env w req br resp body jsonData feed hreq hdo hbody hc hu hm⟩

theorem httpError_fresh (msg : String) (code : Nat) :
    http.Error (ResponseWriter.fresh []) msg code =
      { header := [("Content-Type", ["text/plain; charset=utf-8"]),
          ("X-Content-Type-Options", ["nosniff"])],
        wroteHeader := true, status := code,
        sent := [("Content-Type", ["text/plain; charset=utf-8"]),
          ("X-Content-Type-Options", ["nosniff"])],
        body := bytesOf (msg ++ "\n"),
        ops := [Op.hDel "Content-Length",
          Op.hSet "Content-Type" "text/plain; charset=utf-8",
          Op.hSet "X-Content-Type-Options" "nosniff",
          Op.writeHeader code, Op.write (bytesOf (msg ++ "\n"))] } := by
  rw [httpError_eq _ _ _ rfl]
  have h : Header.Set (Header.Set (Header.Del (ResponseWriter.fresh []).header "Content-Length")
      "Content-Type" "text/plain; charset=utf-8") "X-Content-Type-Options" "nosniff" =
      [("Content-Type", ["text/plain; charset=utf-8"]),
        ("X-Content-Type-Options", ["nosniff"])] := by decide
  rw [h]
  simp [ResponseWriter.fresh]

theorem serve_status_of_read {Feed : Type} (env : Env Feed) (w : ResponseWriter)
    (req : Request) (br : BackendRequest) (resp : Response) (body : Bytes)
    (hw : w.wroteHeader = false)
    (hreq : backendRequest env req = some br) (hdo : env.Do br = some resp)
    (hbody : resp.Body = some body) :
    (ServeHTTP env w req).status = resp.StatusCode := by
  rcases serve_read_cases env w req br resp body hreq hdo hbody with h | ⟨_, _, _, _, h⟩
  · rw [h, passThrough_eq _ _ _ hw]
  · rw [h, transform_eq _ _ _ hw]

theorem countP_writeHeader_of_headerOps (hs : List Op) (h : ∀ o ∈ hs, o.isHeaderOp = true) :
    hs.countP Op.isWriteHeader = 0 ∧ hs.countP Op.isWrite = 0 := by
  induction hs with
  | nil => exact ⟨rfl, rfl⟩
  | cons o t ih =>
    have ho := h o (List.mem_cons_self _ _)
    have ht := ih (fun o ho => h o (List.mem_cons_of_mem _ ho))
    cases o <;> simp_all [Op.isHeaderOp, Op.isWriteHeader, Op.isWrite]

/-- The shape of a finished reply: header calls, then one `WriteHeader`,
then one `Write`. -/
theorem reply_shape (out : ResponseWriter) (hs : List Op) (code : Nat) (b : Bytes)
    (hops : out.ops = hs ++ [Op.writeHeader code, Op.write b])
    (hhs : ∀ o ∈ hs, o.isHeaderOp = true) :
    out.ops.countP Op.isWriteHeader = 1 ∧ out.ops.countP Op.isWrite = 1 := by
  have h := countP_writeHeader_of_headerOps hs hhs
  rw [hops]
  simp [List.countP_append, h.1, h.2, Op.isWriteHeader, Op.isWrite]

theorem addValues_eq (name : String) (values : List String) (r : BackendRequest) :
    addValues name values r = { r with Header := Header.addAll r.Header name values } := by
  induction values generalizing r with
  | nil => rfl
  | cons v vs ih =>
    have hstep : addValues name (v :: vs) r =
        addValues name vs { r with Header := Header.Add r.Header name v } := rfl
    rw [hstep, ih]
    rfl

theorem copyRequestHeaders_eq (h : Header) (r : BackendRequest) :
    h.foldl (fun r e => addValues e.1 e.2 r) r =
      { r with Header := Header.copyInto (fun _ => true) h r.Header } := by
  induction h generalizing r with
  | nil => rfl
  | cons e t ih =>
    rw [List.foldl_cons, ih, addValues_eq]
    simp [Header.copyInto]

theorem validMethod_ne_empty (m : String) (h : validMethod m = true) : m ≠ "" := by
  intro hm
  subst hm
  simp [validMethod] at h

theorem newRequest_some {Feed : Type} (env : Env Feed) (method url : String) (body : Bytes)
    (b0 : BackendRequest) (h : http.NewRequest env method url body = some b0) :
    ∃ u, env.urlParse url = some u ∧
      b0 = { Method := if method = "" then "GET" else method,
             URL := { u with Host := removeEmptyPort u.Host }, Header := [], Body := body } := by
  unfold http.NewRequest at h
  simp only [] at h
  cases hv : validMethod (if method = "" then "GET" else method) with
  | false => simp [hv] at h
  | true =>
    cases hu : env.urlParse url with
    | none => simp [hv, hu] at h
    | some u =>
      simp only [hv, hu, Bool.not_true, Bool.false_eq_true, if_false, Option.some.injEq] at h
      exact ⟨u, rfl, h.symm⟩

/-! ## The claims -/

/-- C1. The classification of lines 76-80 is true exactly when the content
type equals `application/x-protobuf` or `application/protobuf`, or contains
`octet-stream`, or the path contains `gtfs` or `tripupdates`; it is false
exactly when none of the five holds. -/
theorem classification_iff (c p : String) :
    (isGTFSRT c p = true ↔
      (c = "application/x-protobuf" ∨ c = "application/protobuf" ∨
        HasSubstring c "octet-stream" ∨ HasSubstring p "gtfs" ∨
        HasSubstring p "tripupdates")) ∧
    (isGTFSRT c p = false ↔
      ¬ (c = "application/x-protobuf" ∨ c = "application/protobuf" ∨
        HasSubstring c "octet-stream" ∨ HasSubstring p "gtfs" ∨
        HasSubstring p "tripupdates")) := by
  have h : isGTFSRT c p = true ↔
      (c = "application/x-protobuf" ∨ c = "application/protobuf" ∨
        HasSubstring c "octet-stream" ∨ HasSubstring p "gtfs" ∨
        HasSubstring p "tripupdates") := by
    simp only [isGTFSRT, Bool.or_eq_true, beq_iff_eq, contains_iff]
    tauto
  refine ⟨h, ?_⟩
  rw [← h]
  simp

/-- C2. A successfully read backend response that is not classified as a
feed is passed through: starting from an empty caller header set, the
emitted response has the backend status, the backend header set (every name
with the same values in the same order) and the backend body. The backend
header map is a well-formed one, as every map read from a message is
(`wellFormed_readHeader`). -/
theorem passthrough_non_feed {Feed : Type} (env : Env Feed) (req : Request)
    (br : BackendRequest) (resp : Response) (body : Bytes)
    (hreq : backendRequest env req = some br) (hdo : env.Do br = some resp)
    (hbody : resp.Body = some body) (hwf : Header.WellFormed resp.Header)
    (h1 : Header.Get resp.Header "Content-Type" ≠ "application/x-protobuf")
    (h2 : Header.Get resp.Header "Content-Type" ≠ "application/protobuf")
    (h3 : ¬ HasSubstring (Header.Get resp.Header "Content-Type") "octet-stream")
    (h4 : ¬ HasSubstring req.URL.Path "gtfs")
    (h5 : ¬ HasSubstring req.URL.Path "tripupdates") :
    (ServeHTTP env (ResponseWriter.fresh []) req).status = resp.StatusCode ∧
      (∀ name, Header.lookup (ServeHTTP env (ResponseWriter.fresh []) req).sent name =
        Header.lookup resp.Header name) ∧
      (ServeHTTP env (ResponseWriter.fresh []) req).body = body := by
  rw [serve_not_feed env _ req br resp body hreq hdo hbody
    (isGTFSRT_false_of h1 h2 h3 h4 h5)]
  exact passThrough_fresh resp body hwf

/-- Witness of C2: `plainResponse` on `plainRequest`. -/
theorem passthrough_non_feed_witness :
    (ServeHTTP (sampleEnv (some plainResponse) (some sampleJson))
        (ResponseWriter.fresh []) plainRequest).status = 404 ∧
      (∀ name, Header.lookup (ServeHTTP (sampleEnv (some plainResponse) (some sampleJson))
          (ResponseWriter.fresh []) plainRequest).sent name =
        Header.lookup plainResponse.Header name) ∧
      (ServeHTTP (sampleEnv (some plainResponse) (some sampleJson))
        (ResponseWriter.fresh []) plainRequest).body = [104, 105] :=
  passthrough_non_feed (sampleEnv (some plainResponse) (some sampleJson)) plainRequest
    plainBackendRequest plainResponse [104, 105] (by decide) rfl rfl (by decide)
    (by decide) (by decide)
    (mt (contains_iff _ _).2 (by decide)) (mt (contains_iff _ _).2 (by decide))
    (mt (contains_iff _ _).2 (by decide))

/-- C3. Silent degrade: when a response classified as a feed does not
decode, or decodes but does not re-encode, the emitted response (from an
empty caller header set) has the backend status, the full backend header
set, `Content-Type` and `Content-Length` included, and the raw body, for a
well-formed backend header map. -/
theorem silent_degrade {Feed : Type} (env : Env Feed) (req : Request)
    (br : BackendRequest) (resp : Response) (body : Bytes)
    (hreq : backendRequest env req = some br) (hdo : env.Do br = some resp)
    (hbody : resp.Body = some body) (hwf : Header.WellFormed resp.Header)
    (_hc : isGTFSRT (Header.Get resp.Header "Content-Type") req.URL.Path = true)
    (hfail : env.Unmarshal body = none ∨
      ∃ feed, env.Unmarshal body = some feed ∧ env.Marshal feed = none) :
    (ServeHTTP env (ResponseWriter.fresh []) req).status = resp.StatusCode ∧
      (∀ name, Header.lookup (ServeHTTP env (ResponseWriter.fresh []) req).sent name =
        Header.lookup resp.Header name) ∧
      (ServeHTTP env (ResponseWriter.fresh []) req).body = body := by
  rw [serve_decode_fail env _ req br resp body hreq hdo hbody hfail]
  exact passThrough_fresh resp body hwf

/-- Witness of C3: the truncated feed is returned as it came. -/
theorem silent_degrade_witness :
    (ServeHTTP (sampleEnv (some truncatedResponse) (some sampleJson))
        (ResponseWriter.fresh []) feedRequest).status = 200 ∧
      (∀ name, Header.lookup (ServeHTTP (sampleEnv (some truncatedResponse) (some sampleJson))
          (ResponseWriter.fresh []) feedRequest).sent name =
        Header.lookup truncatedResponse.Header name) ∧
      (ServeHTTP (sampleEnv (some truncatedResponse) (some sampleJson))
        (ResponseWriter.fresh []) feedRequest).body = [255] :=
  silent_degrade (sampleEnv (some truncatedResponse) (some sampleJson)) feedRequest
    feedBackendRequest truncatedResponse [255] (by decide) rfl rfl (by decide) (by decide)
    (Or.inl (by decide))

/-- C4. Transform success: when a response classified as a feed decodes and
re-encodes, the emitted response has the backend status, a `Content-Type`
entry whose value list is exactly `application/json`, whatever the backend
and the caller header set held, and the encoder output as its body. -/
theorem transform_success_shape {Feed : Type} (env : Env Feed) (req : Request)
    (h0 : Header) (br : BackendRequest) (resp : Response) (body jsonData : Bytes) (feed : Feed)
    (hreq : backendRequest env req = some br) (hdo : env.Do br = some resp)
    (hbody : resp.Body = some body)
    (hc : isGTFSRT (Header.Get resp.Header "Content-Type") req.URL.Path = true)
    (hu : env.Unmarshal body = some feed) (hm : env.Marshal feed = some jsonData) :
    (ServeHTTP env (ResponseWriter.fresh h0) req).status = resp.StatusCode ∧
      Header.lookup (ServeHTTP env (ResponseWriter.fresh h0) req).sent "Content-Type" =
        some ["application/json"] ∧
      (ServeHTTP env (ResponseWriter.fresh h0) req).body = jsonData := by
  rw [serve_transform env _ req br resp body jsonData feed hreq hdo hbody hc hu hm,
    transform_eq _ _ _ rfl]
  refine ⟨rfl, ?_, ?_⟩
  · show Header.lookup (Header.Set _ "Content-Type" "application/json") "Content-Type" = _
    rw [lookup_Set, canonical_contentType, if_pos rfl]
  · simp [ResponseWriter.fresh]

/-- Witness of C4: `feedResponse` on `feedRequest`. -/
theorem transform_success_shape_witness :
    (ServeHTTP (sampleEnv (some feedResponse) (some sampleJson))
        (ResponseWriter.fresh []) feedRequest).status = 200 ∧
      Header.lookup (ServeHTTP (sampleEnv (some feedResponse) (some sampleJson))
        (ResponseWriter.fresh []) feedRequest).sent "Content-Type" =
        some ["application/json"] ∧
      (ServeHTTP (sampleEnv (some feedResponse) (some sampleJson))
        (ResponseWriter.fresh []) feedRequest).body = sampleJson :=
  transform_success_shape (sampleEnv (some feedResponse) (some sampleJson)) feedRequest []
    feedBackendRequest feedResponse [10, 1, 0] sampleJson [10, 1, 0]
    (by decide) rfl rfl (by decide) (by decide) rfl

/-- C5. Header copy on the transform-success path, from an empty caller
header set and for a well-formed backend header map: every backend header
name other than `Content-Type` and `Content-Length` is emitted with the same
values in the same order, and the only emitted name that may be absent from
the backend response is `Content-Type`. -/
theorem transform_header_copy {Feed : Type} (env : Env Feed) (req : Request)
    (br : BackendRequest) (resp : Response) (body jsonData : Bytes) (feed : Feed)
    (hreq : backendRequest env req = some br) (hdo : env.Do br = some resp)
    (hbody : resp.Body = some body) (hwf : Header.WellFormed resp.Header)
    (hc : isGTFSRT (Header.Get resp.Header "Content-Type") req.URL.Path = true)
    (hu : env.Unmarshal body = some feed) (hm : env.Marshal feed = some jsonData) :
    (∀ n ∈ Header.names resp.Header, n ≠ "Content-Type" → n ≠ "Content-Length" →
      n ∈ Header.names (ServeHTTP env (ResponseWriter.fresh []) req).sent ∧
      Header.lookup (ServeHTTP env (ResponseWriter.fresh []) req).sent n =
        Header.lookup resp.Header n) ∧
    (∀ n ∈ Header.names (ServeHTTP env (ResponseWriter.fresh []) req).sent,
      n = "Content-Type" ∨ n ∈ Header.names resp.Header) := by
  rw [serve_transform env _ req br resp body jsonData feed hreq hdo hbody hc hu hm,
    transform_eq _ _ _ rfl]
  have key : ∀ n, n ≠ "Content-Type" →
      Header.lookup (Header.Set (Header.copyInto essential resp.Header [])
        "Content-Type" "application/json") n =
      match Header.lookup resp.Header n with
      | some vs => if essential n then some vs else none
      | none => none := by
    intro n hn
    rw [lookup_Set, canonical_contentType, if_neg hn, lookup_copyInto _ _ _ hwf]
    cases Header.lookup resp.Header n with
    | none => rfl
    | some vs => simp [Header.index, Header.lookup]
  constructor
  · intro n hmem hct hcl
    have hess : essential n = true := by simp [essential, hct, hcl]
    have hl : Header.lookup (Header.Set (Header.copyInto essential resp.Header [])
        "Content-Type" "application/json") n = Header.lookup resp.Header n := by
      rw [key n hct]
      cases Header.lookup resp.Header n with
      | none => rfl
      | some vs => simp [hess]
    refine ⟨?_, hl⟩
    by_contra hnot
    have h1 := (lookup_eq_none_iff _ n).2 hnot
    have h2 : Header.lookup resp.Header n ≠ none := fun h => (lookup_eq_none_iff _ n).1 h hmem
    exact h2 (hl ▸ h1)
  · intro n hmem
    by_cases hct : n = "Content-Type"
    · exact Or.inl hct
    · right
      by_contra hnot
      have h1 := (lookup_eq_none_iff _ n).2 hnot
      have h2 := key n hct
      rw [h1] at h2
      exact (lookup_eq_none_iff _ n).1 h2 hmem

/-- Witness of C5: `X-Request-Id` of `feedResponse` keeps both values. -/
theorem transform_header_copy_witness :
    (∀ n ∈ Header.names feedResponse.Header, n ≠ "Content-Type" → n ≠ "Content-Length" →
      n ∈ Header.names (ServeHTTP (sampleEnv (some feedResponse) (some sampleJson))
        (ResponseWriter.fresh []) feedRequest).sent ∧
      Header.lookup (ServeHTTP (sampleEnv (some feedResponse) (some sampleJson))
        (ResponseWriter.fresh []) feedRequest).sent n =
        Header.lookup feedResponse.Header n) ∧
    (∀ n ∈ Header.names (ServeHTTP (sampleEnv (some feedResponse) (some sampleJson))
        (ResponseWriter.fresh []) feedRequest).sent,
      n = "Content-Type" ∨ n ∈ Header.names feedResponse.Header) :=
  transform_header_copy (sampleEnv (some feedResponse) (some sampleJson)) feedRequest
    feedBackendRequest feedResponse [10, 1, 0] sampleJson [10, 1, 0]
    (by decide) rfl rfl (by decide) (by decide) (by decide) rfl

/-- C6. On the transform-success path no backend value is emitted under
`Content-Length`, whatever the backend header map carries: the emitted entry
is the one the caller header set held before the call, if any, so nothing
when that set was empty. The backend header map is a well-formed one, as
every map read from a message is (`wellFormed_readHeader`), whatever the
spelling of the names in the message. -/
theorem content_length_not_copied {Feed : Type} (env : Env Feed) (req : Request)
    (h0 : Header) (br : BackendRequest) (resp : Response) (body jsonData : Bytes) (feed : Feed)
    (hreq : backendRequest env req = some br) (hdo : env.Do br = some resp)
    (hbody : resp.Body = some body) (hwf : Header.WellFormed resp.Header)
    (hc : isGTFSRT (Header.Get resp.Header "Content-Type") req.URL.Path = true)
    (hu : env.Unmarshal body = some feed) (hm : env.Marshal feed = some jsonData) :
    Header.lookup (ServeHTTP env (ResponseWriter.fresh h0) req).sent "Content-Length" =
      Header.lookup h0 "Content-Length" := by
  rw [serve_transform env _ req br resp body jsonData feed hreq hdo hbody hc hu hm,
    transform_eq _ _ _ rfl]
  show Header.lookup (Header.Set _ "Content-Type" "application/json") "Content-Length" = _
  rw [lookup_Set, canonical_contentType, if_neg (by decide)]
  apply lookup_copyInto_other
  intro e he hp
  rw [(hwf.2 e he).1]
  simp only [essential, decide_eq_true_eq] at hp
  exact hp.2

/-- Witness of C6: the backend message spells the name `content-length`; the
header map read from it is well formed and its value is not emitted. -/
theorem content_length_not_copied_witness :
    Header.lookup lowerCaseWireResponse.Header "Content-Length" = some ["7"] ∧
      Header.lookup (ServeHTTP (sampleEnv (some lowerCaseWireResponse) (some sampleJson))
        (ResponseWriter.fresh []) feedRequest).sent "Content-Length" = none :=
  ⟨by decide,
    content_length_not_copied (sampleEnv (some lowerCaseWireResponse) (some sampleJson))
      feedRequest [] feedBackendRequest lowerCaseWireResponse [10, 5, 10, 3, 50, 46, 48]
      sampleJson [10, 5, 10, 3, 50, 46, 48]
      (by decide) rfl rfl (wellFormed_readHeader _) (by decide) (by decide) rfl⟩

/-- C7, as the code has it. From an empty caller header set: when the
backend request cannot be built the reply is the `http.Error` reply with
status 500 and message `Internal Server Error`; when sending fails it is
the `http.Error` reply with status 503 and message `Service Unavailable`;
when reading the body fails it is the `http.Error` reply with status 500
and message `Internal Server Error`; once the body is read the status is
the backend status. An `http.Error` reply holds the two headers set by
`http.Error`, the message and a line feed, and nothing from the backend. -/
theorem status_mapping {Feed : Type} (env : Env Feed) (req : Request) :
    (backendRequest env req = none →
      ServeHTTP env (ResponseWriter.fresh []) req =
        { header := [("Content-Type", ["text/plain; charset=utf-8"]),
            ("X-Content-Type-Options", ["nosniff"])],
          wroteHeader := true, status := 500,
          sent := [("Content-Type", ["text/plain; charset=utf-8"]),
            ("X-Content-Type-Options", ["nosniff"])],
          body := bytesOf "Internal Server Error\n",
          ops := [Op.hDel "Content-Length",
            Op.hSet "Content-Type" "text/plain; charset=utf-8",
            Op.hSet "X-Content-Type-Options" "nosniff",
            Op.writeHeader 500, Op.write (bytesOf "Internal Server Error\n")] }) ∧
    (∀ br, backendRequest env req = some br → env.Do br = none →
      ServeHTTP env (ResponseWriter.fresh []) req =
        { header := [("Content-Type", ["text/plain; charset=utf-8"]),
            ("X-Content-Type-Options", ["nosniff"])],
          wroteHeader := true, status := 503,
          sent := [("Content-Type", ["text/plain; charset=utf-8"]),
            ("X-Content-Type-Options", ["nosniff"])],
          body := bytesOf "Service Unavailable\n",
          ops := [Op.hDel "Content-Length",
            Op.hSet "Content-Type" "text/plain; charset=utf-8",
            Op.hSet "X-Content-Type-Options" "nosniff",
            Op.writeHeader 503, Op.write (bytesOf "Service Unavailable\n")] }) ∧
    (∀ br resp, backendRequest env req = some br → env.Do br = some resp →
      resp.Body = none →
      ServeHTTP env (ResponseWriter.fresh []) req =
        { header := [("Content-Type", ["text/plain; charset=utf-8"]),
            ("X-Content-Type-Options", ["nosniff"])],
          wroteHeader := true, status := 500,
          sent := [("Content-Type", ["text/plain; charset=utf-8"]),
            ("X-Content-Type-Options", ["nosniff"])],
          body := bytesOf "Internal Server Error\n",
          ops := [Op.hDel "Content-Length",
            Op.hSet "Content-Type" "text/plain; charset=utf-8",
            Op.hSet "X-Content-Type-Options" "nosniff",
            Op.writeHeader 500, Op.write (bytesOf "Internal Server Error\n")] }) ∧
    (∀ br resp body, backendRequest env req = some br → env.Do br = some resp →
      resp.Body = some body →
      (ServeHTTP env (ResponseWriter.fresh []) req).status = resp.StatusCode) := by
  refine ⟨?_, ?_, ?_, ?_⟩
  · intro hreq
    simp only [ServeHTTP, hreq]
    exact httpError_fresh _ _
  · intro br hreq hdo
    simp only [ServeHTTP, hreq, hdo, respond]
    exact httpError_fresh _ _
  · intro br resp hreq hdo hbody
    simp only [ServeHTTP, hreq, hdo, respond, hbody]
    exact httpError_fresh _ _
  · intro br resp body hreq hdo hbody
    exact serve_status_of_read env _ req br resp body rfl hreq hdo hbody

/-- Witness of C7 as amended: the four cases at sample inputs. -/
theorem status_mapping_witness :
    (ServeHTTP (sampleEnv (some feedResponse) (some sampleJson))
      (ResponseWriter.fresh []) badMethodRequest).status = 500 ∧
    (ServeHTTP (sampleEnv none (some sampleJson))
      (ResponseWriter.fresh []) feedRequest).status = 503 ∧
    (ServeHTTP (sampleEnv (some unreadableResponse) (some sampleJson))
      (ResponseWriter.fresh []) feedRequest).status = 500 ∧
    (ServeHTTP (sampleEnv (some plainResponse) (some sampleJson))
      (ResponseWriter.fresh []) plainRequest).status = 404 :=
  ⟨congrArg ResponseWriter.status
      ((status_mapping (sampleEnv (some feedResponse) (some sampleJson)) badMethodRequest).1
        (by decide)),
    congrArg ResponseWriter.status
      ((status_mapping (sampleEnv none (some sampleJson)) feedRequest).2.1
        feedBackendRequest (by decide) rfl),
    congrArg ResponseWriter.status
      ((status_mapping (sampleEnv (some unreadableResponse) (some sampleJson)) feedRequest).2.2.1
        feedBackendRequest unreadableResponse (by decide) rfl rfl),
    (status_mapping (sampleEnv (some plainResponse) (some sampleJson)) plainRequest).2.2.2
      plainBackendRequest plainResponse [104, 105] (by decide) rfl rfl⟩

/-- Counterexample to C7 as stated: `badMethodRequest` has a method that is
not a token, so no backend request is built: nothing is sent and nothing is
read, although the backend would answer 200 to any request, and the status
emitted is 500. -/
theorem status_500_without_backend :
    backendRequest (sampleEnv (some feedResponse) (some sampleJson)) badMethodRequest = none ∧
      Option.map Response.StatusCode
        ((sampleEnv (some feedResponse) (some sampleJson)).Do feedBackendRequest) = some 200 ∧
      (ServeHTTP (sampleEnv (some feedResponse) (some sampleJson))
        (ResponseWriter.fresh []) badMethodRequest).status = 500 := by
  decide

/-- C8. Idempotence: let `R` be the reply on the transform-success path,
from an empty caller header set. Its `Content-Type` is `application/json`,
so on a path containing neither `gtfs` nor `tripupdates` it is not
classified as a feed, and a second call that receives `R` as the backend
response emits the status, header set and body of `R`. -/
theorem filter_idempotent {Feed Feed2 : Type} (env : Env Feed) (req : Request)
    (br : BackendRequest) (resp : Response) (body jsonData : Bytes) (feed : Feed)
    (hreq : backendRequest env req = some br) (hdo : env.Do br = some resp)
    (hbody : resp.Body = some body)
    (hc : isGTFSRT (Header.Get resp.Header "Content-Type") req.URL.Path = true)
    (hu : env.Unmarshal body = some feed) (hm : env.Marshal feed = some jsonData)
    (env2 : Env Feed2) (req2 : Request) (br2 : BackendRequest)
    (hreq2 : backendRequest env2 req2 = some br2)
    (hdo2 : env2.Do br2 = some
      { StatusCode := (ServeHTTP env (ResponseWriter.fresh []) req).status,
        Header := (ServeHTTP env (ResponseWriter.fresh []) req).sent,
        Body := some (ServeHTTP env (ResponseWriter.fresh []) req).body })
    (h4 : ¬ HasSubstring req2.URL.Path "gtfs")
    (h5 : ¬ HasSubstring req2.URL.Path "tripupdates") :
    isGTFSRT (Header.Get (ServeHTTP env (ResponseWriter.fresh []) req).sent "Content-Type")
        req2.URL.Path = false ∧
      (ServeHTTP env2 (ResponseWriter.fresh []) req2).status =
        (ServeHTTP env (ResponseWriter.fresh []) req).status ∧
      (∀ name, Header.lookup (ServeHTTP env2 (ResponseWriter.fresh []) req2).sent name =
        Header.lookup (ServeHTTP env (ResponseWriter.fresh []) req).sent name) ∧
      (ServeHTTP env2 (ResponseWriter.fresh []) req2).body =
        (ServeHTTP env (ResponseWriter.fresh []) req).body ∧
      (ServeHTTP env (ResponseWriter.fresh []) req).body = jsonData := by
  have hR : ServeHTTP env (ResponseWriter.fresh []) req =
      { header := Header.Set (Header.copyInto essential resp.Header [])
          "Content-Type" "application/json",
        wroteHeader := true, status := resp.StatusCode,
        sent := Header.Set (Header.copyInto essential resp.Header [])
          "Content-Type" "application/json",
        body := jsonData,
        ops := copyOps essential resp.Header ++
          [Op.hSet "Content-Type" "application/json"] ++
          [Op.writeHeader resp.StatusCode, Op.write jsonData] } := by
    rw [serve_transform env _ req br resp body jsonData feed hreq hdo hbody hc hu hm,
      transform_eq _ _ _ rfl]
    simp [ResponseWriter.fresh]
  rw [hR] at hdo2 ⊢
  simp only [] at hdo2 ⊢
  have hwf : Header.WellFormed (Header.Set (Header.copyInto essential resp.Header [])
      "Content-Type" "application/json") :=
    wellFormed_Set _ _ _ (wellFormed_copyInto _ _ _ wellFormed_nil)
  have hget : Header.Get (Header.Set (Header.copyInto essential resp.Header [])
      "Content-Type" "application/json") "Content-Type" = "application/json" := by
    simp [Header.Get, Header.index, lookup_Set]
  have hcls : isGTFSRT (Header.Get (Header.Set (Header.copyInto essential resp.Header [])
      "Content-Type" "application/json") "Content-Type") req2.URL.Path = false := by
    rw [hget]
    exact isGTFSRT_false_of (by decide) (by decide) (mt (contains_iff _ _).2 (by decide)) h4 h5
  refine ⟨hcls, ?_⟩
  rw [serve_not_feed env2 _ req2 br2 _ jsonData hreq2 hdo2 rfl hcls]
  have h := passThrough_fresh
    { StatusCode := resp.StatusCode,
      Header := Header.Set (Header.copyInto essential resp.Header [])
        "Content-Type" "application/json",
      Body := some jsonData } jsonData hwf
  exact ⟨h.1, h.2.1, h.2.2, trivial⟩

/-- Witness of C8: the reply to `feedRequest` is fed back on `plainRequest`. -/
theorem filter_idempotent_witness :
    (ServeHTTP (sampleEnv (some
        { StatusCode := (ServeHTTP (sampleEnv (some feedResponse) (some sampleJson))
            (ResponseWriter.fresh []) feedRequest).status,
          Header := (ServeHTTP (sampleEnv (some feedResponse) (some sampleJson))
            (ResponseWriter.fresh []) feedRequest).sent,
          Body := some (ServeHTTP (sampleEnv (some feedResponse) (some sampleJson))
            (ResponseWriter.fresh []) feedRequest).body }) (some sampleJson))
        (ResponseWriter.fresh []) plainRequest).body = sampleJson :=
  let h := filter_idempotent (sampleEnv (some feedResponse) (some sampleJson)) feedRequest
    feedBackendRequest feedResponse [10, 1, 0] sampleJson [10, 1, 0]
    (by decide) rfl rfl (by decide) (by decide) rfl
    (sampleEnv (some
        { StatusCode := (ServeHTTP (sampleEnv (some feedResponse) (some sampleJson))
            (ResponseWriter.fresh []) feedRequest).status,
          Header := (ServeHTTP (sampleEnv (some feedResponse) (some sampleJson))
            (ResponseWriter.fresh []) feedRequest).sent,
          Body := some (ServeHTTP (sampleEnv (some feedResponse) (some sampleJson))
            (ResponseWriter.fresh []) feedRequest).body }) (some sampleJson))
    plainRequest plainBackendRequest (by decide) rfl
    (mt (contains_iff _ _).2 (by decide)) (mt (contains_iff _ _).2 (by decide))
  h.2.2.2.1.trans h.2.2.2.2

/-- C9. Every call of `ServeHTTP` on a fresh writer makes, in this order,
calls on the header map, then exactly one `WriteHeader`, then exactly one
`Write`; the status and body of the reply are those two arguments, the
headers sent are the header map as it stands at the end, and once the
backend body is read the bytes written are the raw body or the JSON the
encoder returned for the decoded body. -/
theorem one_response_per_call {Feed : Type} (env : Env Feed) (req : Request) (h0 : Header) :
    ∃ hs code b,
      (ServeHTTP env (ResponseWriter.fresh h0) req).ops =
        hs ++ [Op.writeHeader code, Op.write b] ∧
      (∀ o ∈ hs, o.isHeaderOp = true) ∧
      (ServeHTTP env (ResponseWriter.fresh h0) req).ops.countP Op.isWriteHeader = 1 ∧
      (ServeHTTP env (ResponseWriter.fresh h0) req).ops.countP Op.isWrite = 1 ∧
      (ServeHTTP env (ResponseWriter.fresh h0) req).wroteHeader = true ∧
      (ServeHTTP env (ResponseWriter.fresh h0) req).status = code ∧
      (ServeHTTP env (ResponseWriter.fresh h0) req).body = b ∧
      (ServeHTTP env (ResponseWriter.fresh h0) req).sent =
        (ServeHTTP env (ResponseWriter.fresh h0) req).header ∧
      (∀ br resp body, backendRequest env req = some br → env.Do br = some resp →
        resp.Body = some body →
        b = body ∨ ∃ feed, env.Unmarshal body = some feed ∧ env.Marshal feed = some b) := by
  have herr : ∀ (msg : String) (c : Nat),
      ∃ hs code b,
        (http.Error (ResponseWriter.fresh h0) msg c).ops =
          hs ++ [Op.writeHeader code, Op.write b] ∧
        (∀ o ∈ hs, o.isHeaderOp = true) ∧
        (http.Error (ResponseWriter.fresh h0) msg c).wroteHeader = true ∧
        (http.Error (ResponseWriter.fresh h0) msg c).status = code ∧
        (http.Error (ResponseWriter.fresh h0) msg c).body = b ∧
        (http.Error (ResponseWriter.fresh h0) msg c).sent =
          (http.Error (ResponseWriter.fresh h0) msg c).header := by
    intro msg c
    rw [httpError_eq _ _ _ rfl]
    refine ⟨_, c, bytesOf (msg ++ "\n"), rfl, ?_, rfl, rfl, ?_, rfl⟩
    · intro o ho
      simp only [ResponseWriter.fresh, List.nil_append, List.mem_cons, List.mem_singleton,
        List.not_mem_nil, or_false] at ho
      rcases ho with rfl | rfl | rfl <;> rfl
    · simp [ResponseWriter.fresh]
  cases hreq : backendRequest env req with
  | none =>
    have hs : ServeHTTP env (ResponseWriter.fresh h0) req =
        http.Error (ResponseWriter.fresh h0) "Internal Server Error" 500 := by
      simp only [ServeHTTP, hreq]
    obtain ⟨hs1, code, b, h1, h2, h3, h4, h5, h6⟩ := herr "Internal Server Error" 500
    rw [hs]
    exact ⟨hs1, code, b, h1, h2, (reply_shape _ hs1 code b h1 h2).1,
      (reply_shape _ hs1 code b h1 h2).2, h3, h4, h5, h6,
      fun br resp body hbr => by simp at hbr⟩
  | some br =>
    cases hdo : env.Do br with
    | none =>
      have hs : ServeHTTP env (ResponseWriter.fresh h0) req =
          http.Error (ResponseWriter.fresh h0) "Service Unavailable" 503 := by
        simp only [ServeHTTP, hreq, hdo, respond]
      obtain ⟨hs1, code, b, h1, h2, h3, h4, h5, h6⟩ := herr "Service Unavailable" 503
      rw [hs]
      refine ⟨hs1, code, b, h1, h2, (reply_shape _ hs1 code b h1 h2).1,
        (reply_shape _ hs1 code b h1 h2).2, h3, h4, h5, h6, ?_⟩
      intro br1 resp body hbr hdo1
      rw [← Option.some.inj hbr, hdo] at hdo1
      simp at hdo1
    | some resp =>
      cases hbody : resp.Body with
      | none =>
        have hs : ServeHTTP env (ResponseWriter.fresh h0) req =
            http.Error (ResponseWriter.fresh h0) "Internal Server Error" 500 := by
          simp only [ServeHTTP, hreq, hdo, respond, hbody]
        obtain ⟨hs1, code, b, h1, h2, h3, h4, h5, h6⟩ := herr "Internal Server Error" 500
        rw [hs]
        refine ⟨hs1, code, b, h1, h2, (reply_shape _ hs1 code b h1 h2).1,
          (reply_shape _ hs1 code b h1 h2).2, h3, h4, h5, h6, ?_⟩
        intro br1 resp1 body hbr hdo1 hb1
        rw [← Option.some.inj hbr, hdo] at hdo1
        rw [← Option.some.inj hdo1, hbody] at hb1
        simp at hb1
      | some body =>
        have hsame : ∀ br1 resp1 body1, some br = some br1 → env.Do br1 = some resp1 →
            resp1.Body = some body1 → body1 = body := by
          intro br1 resp1 body1 hbr hdo1 hb1
          rw [← Option.some.inj hbr, hdo] at hdo1
          rw [← Option.some.inj hdo1, hbody] at hb1
          exact (Option.some.inj hb1).symm
        rcases serve_read_cases env (ResponseWriter.fresh h0) req br resp body hreq hdo hbody
          with h | ⟨feed, jsonData, hu, hm, h⟩
        · rw [h, passThrough_eq _ _ _ rfl]
          have hhs : ∀ o ∈ (ResponseWriter.fresh h0).ops ++ copyOps (fun _ => true) resp.Header,
              o.isHeaderOp = true := by
            intro o ho
            simp only [ResponseWriter.fresh, List.nil_append] at ho
            exact copyOps_isHeaderOp _ _ o ho
          refine ⟨_, resp.StatusCode, body, rfl, hhs,
            (reply_shape _ _ _ _ rfl hhs).1, (reply_shape _ _ _ _ rfl hhs).2,
            rfl, rfl, by simp [ResponseWriter.fresh], rfl, ?_⟩
          intro br1 resp1 body1 hbr hdo1 hb1
          exact Or.inl (hsame br1 resp1 body1 hbr hdo1 hb1).symm
        · rw [h, transform_eq _ _ _ rfl]
          have hhs : ∀ o ∈ (ResponseWriter.fresh h0).ops ++ copyOps essential resp.Header ++
              [Op.hSet "Content-Type" "application/json"], o.isHeaderOp = true := by
            intro o ho
            simp only [ResponseWriter.fresh, List.nil_append, List.mem_append,
              List.mem_singleton] at ho
            rcases ho with ho | rfl
            · exact copyOps_isHeaderOp _ _ o ho
            · rfl
          refine ⟨_, resp.StatusCode, jsonData, rfl, hhs,
            (reply_shape _ _ _ _ rfl hhs).1, (reply_shape _ _ _ _ rfl hhs).2,
            rfl, rfl, by simp [ResponseWriter.fresh], rfl, ?_⟩
          intro br1 resp1 body1 hbr hdo1 hb1
          rw [hsame br1 resp1 body1 hbr hdo1 hb1]
          exact Or.inr ⟨feed, hu, hm⟩

/-- C10, as the code has it. For an inbound request with a well-formed
header map, the backend request that `ServeHTTP` builds and hands to
`client.Do` has the inbound method (`GET` for an empty one), the inbound
body, a header map with exactly the inbound values, in the inbound order,
under every name, and as URL the one `url.Parse` gives for the text of the
inbound URL, with an empty port removed from its host; such a request is
built whenever the method is a token and the text parses. -/
theorem outbound_request_copy {Feed : Type} (env : Env Feed) (req : Request)
    (hwf : Header.WellFormed req.Header) :
    (∀ br, backendRequest env req = some br →
      br.Method = (if req.Method = "" then "GET" else req.Method) ∧
      (∃ u, env.urlParse (env.urlString req.URL) = some u ∧
        br.URL = { u with Host := removeEmptyPort u.Host }) ∧
      br.Body = req.Body ∧
      (∀ name, Header.lookup br.Header name = Header.lookup req.Header name) ∧
      (∀ w, ServeHTTP env w req = respond env w req (env.Do br))) ∧
    (validMethod req.Method = true →
      ∀ u, env.urlParse (env.urlString req.URL) = some u →
        ∃ br, backendRequest env req = some br ∧ br.Method = req.Method ∧
          br.URL = { u with Host := removeEmptyPort u.Host }) := by
  constructor
  · intro br hbr
    have hserve : ∀ w, ServeHTTP env w req = respond env w req (env.Do br) := by
      intro w
      simp only [ServeHTTP, hbr]
    cases hnew : http.NewRequest env req.Method (env.urlString req.URL) req.Body with
    | none => simp [backendRequest, hnew] at hbr
    | some b0 =>
      obtain ⟨u, hu, hb0⟩ := newRequest_some env _ _ _ b0 hnew
      simp only [backendRequest, hnew, copyRequestHeaders_eq, Option.some.injEq] at hbr
      subst hb0
      subst hbr
      exact ⟨rfl, ⟨u, hu, rfl⟩, rfl, fun name => lookup_copyAll _ hwf name, hserve⟩
  · intro hmethod u hu
    have hne := validMethod_ne_empty _ hmethod
    have hbr : backendRequest env req =
        some { Method := req.Method, URL := { u with Host := removeEmptyPort u.Host },
               Header := Header.copyInto (fun _ => true) req.Header [], Body := req.Body } := by
      simp [backendRequest, http.NewRequest, hne, hmethod, hu, copyRequestHeaders_eq]
    exact ⟨_, hbr, rfl, rfl⟩

/-- Witness of C10 as amended: `feedRequest` yields `feedBackendRequest`. -/
theorem outbound_request_copy_witness :
    backendRequest (sampleEnv (some feedResponse) (some sampleJson)) feedRequest =
        some feedBackendRequest ∧
      feedBackendRequest.Method = feedRequest.Method ∧
      feedBackendRequest.URL = feedRequest.URL ∧
      feedBackendRequest.Body = feedRequest.Body ∧
      (∀ name, Header.lookup feedBackendRequest.Header name =
        Header.lookup feedRequest.Header name) :=
  ⟨by decide, rfl, rfl, rfl,
    ((outbound_request_copy (sampleEnv (some feedResponse) (some sampleJson)) feedRequest
      (by decide)).1 feedBackendRequest (by decide)).2.2.2.1⟩

/-- Counterexample to C10 as stated: the inbound URL has the host `backend:`
and the text `http://backend:/status?q=gtfs`; the request built for the
backend has the host `backend`, so its URL is not the inbound one. -/
theorem empty_port_url_changed :
    sampleURLString emptyPortRequest.URL = "http://backend:/status?q=gtfs" ∧
      Option.map BackendRequest.URL
          (backendRequest (sampleEnv (some plainResponse) (some sampleJson))
            emptyPortRequest) =
        some { Scheme := "http", Host := "backend", Path := "/status", RawQuery := "q=gtfs" } ∧
      Option.map BackendRequest.URL
          (backendRequest (sampleEnv (some plainResponse) (some sampleJson))
            emptyPortRequest) ≠
        some emptyPortRequest.URL := by
  decide

end GtfsrtPlugin
